import Mathlib

/-!
Shallow embedding of the launcher's search/ranking engine, history, desktop
entry cache and content classifier (src/search.rs, src/history.rs,
src/cache.rs, src/content.rs, src/static_units.rs, src/units.rs).

Conventions of the embedding:
* `f64` values are modelled as rationals (`ℚ`); all score constants in the
  source are small decimal literals that are exact in both `f64` and `ℚ`,
  and every claim about scores is a comparison or an exact product, so the
  translation is faithful for the inputs the claims quantify over.
* `HashMap<usize, usize>` is modelled as an association list with unique
  keys, looked up with `List.lookup`.
* Rust functions that can panic (indexing, `unwrap`) are modelled as
  `Option`-returning functions (`none` = panic).
* Strings are processed at `Char` level; the byte-level UTF-8 decoding in
  `content.rs` consumes exactly one full character per step for every input
  the claims mention (all ASCII), so the character-level model coincides.
* The `strsim::jaro_winkler` similarity metric (an external crate) is a
  parameter `jw : String → String → ℚ` of the functions that call it; the
  claims about matching are threshold claims, uniform in the metric.
* The runtime-populated currency table of `units.rs` is a parameter
  `currency : String → Option Nat` of `Unit.from_str`.
-/

namespace Launcher

/-- From src/search.rs: `MatchKind` — `Exact`, or `Similar` carrying the
similarity value. -/
inductive MatchKind where
  | Exact : MatchKind
  | Similar : ℚ → MatchKind
deriving DecidableEq

-- From src/search.rs `mod scores`: the per-field weight constants.
namespace scores

def LOCALIZED_NAME_WEIGHT : ℚ := 14/10
def NAME_WEIGHT : ℚ := 12/10
def LOCALIZED_GENERIC_NAME_WEIGHT : ℚ := 13/10
def GENERIC_NAME_WEIGHT : ℚ := 11/10
def FILE_NAME_WEIGHT : ℚ := 8/10
def PATH_WEIGHT : ℚ := 1
def EXACT_BASE : ℚ := 12/10
/-- Two scores with a delta less than or equal to this are considered equal
(source spelling `EQUAL_THREHOLD`). -/
def EQUAL_THREHOLD : ℚ := 1/1000

end scores

/-- From src/search.rs: `SIMILARITY_THRESHHOLD` (source spelling). -/
def SIMILARITY_THRESHHOLD : ℚ := 3/4

/-- From src/cache.rs: `MatchField` — which entry field produced the hit. -/
inductive MatchField where
  | Name : MatchKind → MatchField
  | LocalizedName : MatchKind → MatchField
  | GenericName : MatchKind → MatchField
  | LocalizedGenericName : MatchKind → MatchField
  | FileName : MatchKind → MatchField
deriving DecidableEq

/-- From src/cache.rs: `MatchField::inner` (called `into_inner` at its use
site in src/search.rs). -/
def MatchField.inner : MatchField → MatchKind
  | .Name k => k
  | .LocalizedName k => k
  | .GenericName k => k
  | .LocalizedGenericName k => k
  | .FileName k => k

/-- From src/search.rs: `get_field_scale`. -/
def get_field_scale : MatchField → ℚ
  | .LocalizedName _ => scores.LOCALIZED_NAME_WEIGHT
  | .Name _ => scores.NAME_WEIGHT
  | .LocalizedGenericName _ => scores.LOCALIZED_GENERIC_NAME_WEIGHT
  | .GenericName _ => scores.GENERIC_NAME_WEIGHT
  | .FileName _ => scores.FILE_NAME_WEIGHT

/-- From src/search.rs: `desktop_entry_score`. -/
def desktop_entry_score (field : MatchField) : ℚ :=
  match field.inner with
  | .Exact => scores.EXACT_BASE
  | .Similar sim => sim * get_field_scale field

/-- From src/cache.rs: `DesktopEntryCache::get_match`, parameterised by the
`strsim::jaro_winkler` metric. -/
def get_match (jw : String → String → ℚ) (name entry_value : String) :
    Option MatchKind :=
  if entry_value = name then some .Exact
  else
    let sim := jw name entry_value
    if SIMILARITY_THRESHHOLD ≤ sim then some (.Similar sim) else none

/-- From src/search.rs: `path_entry_score`, parameterised by the
`strsim::jaro_winkler` metric. -/
def path_entry_score (jw : String → String → ℚ) (item target : String) :
    Option ℚ :=
  if item = target then some scores.EXACT_BASE
  else
    let sim := jw item target
    if sim < SIMILARITY_THRESHHOLD then none else some sim

/-- From src/search.rs: `DesktopEntryData`. -/
structure DesktopEntryData where
  id : Nat
  name : String
  match_name : Option String
deriving DecidableEq

/-- From src/search.rs: `SearchMatchKind`; the `PathEntry` payload (a
`PathBuf`) is modelled as the path string. -/
inductive SearchMatchKind where
  | DeskopEntry : DesktopEntryData → SearchMatchKind
  | PathEntry : String → SearchMatchKind
deriving DecidableEq

/-- From src/search.rs: `SearchMatch`. -/
structure SearchMatch where
  match_ : SearchMatchKind
  score : ℚ
  is_in_history : Bool
deriving DecidableEq

/-- From src/search.rs: `SearchMatch::new` (the `is_in_history` flag starts
out `false` and is only set in `sort_search_results`). -/
def SearchMatch.new (m : SearchMatchKind) (score : ℚ) : SearchMatch :=
  { match_ := m, score := score, is_in_history := false }

/-- `Path::file_name` of a path string: the component after the last
separator (total where the Rust `unwrap` would panic). -/
def pathFileName (path : String) : String :=
  (path.splitOn "/").getLastD ""

/-- From src/search.rs: `SearchMatch::name`. -/
def SearchMatch.name (m : SearchMatch) : String :=
  match m.match_ with
  | .PathEntry path => pathFileName path
  | .DeskopEntry entry => entry.name

/-- Byte-lexicographic comparison of character lists; on UTF-8 strings the
Rust `str::cmp` byte order coincides with this code-point order. -/
def charsCmp : List Char → List Char → Ordering
  | [], [] => .eq
  | [], _ :: _ => .lt
  | _ :: _, [] => .gt
  | a :: as, b :: bs =>
    if a.toNat < b.toNat then .lt
    else if b.toNat < a.toNat then .gt
    else charsCmp as bs

/-- Rust `str::cmp`. -/
def strCmp (a b : String) : Ordering := charsCmp a.data b.data

/-- Rust `f64::total_cmp` restricted to the rational model (on non-NaN
values `total_cmp` agrees with the numeric order). -/
def ratCmp (a b : ℚ) : Ordering :=
  if a < b then .lt else if b < a then .gt else .eq

/-- From src/search.rs: `SearchMatch::compare` — names compared when the
scores differ by at most `EQUAL_THREHOLD`, otherwise descending score. -/
def SearchMatch.compare (a b : SearchMatch) : Ordering :=
  if |a.score - b.score| ≤ scores.EQUAL_THREHOLD then
    strCmp a.name b.name
  else
    ratCmp b.score a.score

/-- The per-element update performed by the loop in
`sort_search_results` (src/search.rs lines 281–296): a desktop-entry match
whose id is in the history map has its score multiplied by
`2.0 * recency as f64` and its `is_in_history` flag set. -/
def boost_history (history : List (Nat × Nat)) (result : SearchMatch) :
    SearchMatch :=
  match result.match_ with
  | .DeskopEntry data =>
    match history.lookup data.id with
    | some recency =>
      { result with
        score := result.score * (2 * (recency : ℚ)),
        is_in_history := true }
    | none => result
  | .PathEntry _ => result

/-- From src/search.rs: `sort_search_results` — boost every result that is
in the history, then stably sort by `SearchMatch::compare`
(`slice::sort_by` is a stable sort). -/
def sort_search_results (results : List SearchMatch)
    (history : List (Nat × Nat)) : List SearchMatch :=
  (results.map (boost_history history)).mergeSort
    (fun a b => a.compare b ≠ .gt)

/-- Rust `str::to_lowercase`, modelled as a per-character lowering. -/
def toLowerStr (s : String) : String := ⟨s.data.map Char.toLower⟩

/-- From src/cache.rs: `Entry` — one parsed desktop entry. -/
structure Entry where
  name : String
  localized_name : Option String
  generic_name : Option String
  localized_generic_name : Option String
  file_name : String
  exec : String
  icon : Option String
deriving DecidableEq

/-- From src/cache.rs: `DesktopEntryCache` (the `locale` field and the
stored `std::io::Error` are irrelevant to the claims about matching and are
modelled where needed, see `rebuild_model`). -/
structure DesktopEntryCache where
  entries : List Entry
deriving DecidableEq

/-- From src/cache.rs: `DesktopEntryCache::find_file` — index of the first
entry whose `file_name` equals the argument. -/
def DesktopEntryCache.find_file (c : DesktopEntryCache) (file_name : String) :
    Option Nat :=
  c.entries.findIdx? fun e => e.file_name = file_name

/-- From src/cache.rs: `DesktopEntryCache::get_entry`, `Option`-valued where
the Rust slice indexing would panic. -/
def DesktopEntryCache.get_entry (c : DesktopEntryCache) (id : Nat) :
    Option Entry :=
  c.entries[id]?

/-- One expansion of the `check!` macro in `find_subset` (src/cache.rs):
try `get_match` on an optional field value, lowercased. -/
def check_field (jw : String → String → ℚ) (name : String)
    (value : Option String) : Option MatchKind :=
  value.bind fun v => get_match jw name (toLowerStr v)

/-- The body of the per-id loop of `find_subset` (src/cache.rs lines
301–321): the fields are tried in the fixed priority order and the first
hit wins (the `continue` after each `check!`). -/
def check_entry (jw : String → String → ℚ) (name : String) (e : Entry) :
    Option MatchField :=
  ((check_field jw name e.localized_name).map .LocalizedName).orElse fun _ =>
  ((check_field jw name (some e.name)).map .Name).orElse fun _ =>
  ((check_field jw name e.localized_generic_name).map
      .LocalizedGenericName).orElse fun _ =>
  ((check_field jw name e.generic_name).map .GenericName).orElse fun _ =>
  (check_field jw name (some e.file_name)).map .FileName

/-- From src/cache.rs: `Match`. -/
structure EntryMatch where
  id : Nat
  field : MatchField
deriving DecidableEq

/-- From src/cache.rs: `DesktopEntryCache::find_subset` — for each id of the
iterator, push at most one `Match` (ids out of range, where the Rust
indexing would panic, yield nothing; the claims only quantify over
in-range ids). -/
def DesktopEntryCache.find_subset (jw : String → String → ℚ)
    (c : DesktopEntryCache) (name : String) (set : List Nat) :
    List EntryMatch :=
  set.filterMap fun id =>
    (c.entries[id]?).bind fun e =>
      (check_entry jw name e).map fun f => { id := id, field := f }

/-- From src/cache.rs: `DesktopEntryCache::find_all` =
`find_subset(name, 0..entries.len())`. -/
def DesktopEntryCache.find_all (jw : String → String → ℚ)
    (c : DesktopEntryCache) (name : String) : List EntryMatch :=
  c.find_subset jw name (List.range c.entries.length)

/-- From src/history.rs: `Entry` (named `HistEntry` here to avoid clashing
with the cache's `Entry`). -/
inductive HistEntry where
  | Path : String → HistEntry
  | DesktopEntry : String → HistEntry
deriving DecidableEq

/-- From src/history.rs: `History`. The `VecDeque` front (most recent) is
the head of the list; `desktop_ids` is the `HashMap<usize, usize>` from
desktop-cache ids to recency scores. -/
structure History where
  entries : List HistEntry
  desktop_ids : List (Nat × Nat)
  next_score : Nat
  max_size : Nat
deriving DecidableEq

/-- `HashMap::insert`: replace the value when the key is present, else add
the pair. -/
def mapInsert (m : List (Nat × Nat)) (k v : Nat) : List (Nat × Nat) :=
  if m.any (fun p => p.1 = k) then
    m.map fun p => if p.1 = k then (k, v) else p
  else
    m ++ [(k, v)]

/-- `HashMap::remove`: drop the pair with the given key. -/
def mapRemove (m : List (Nat × Nat)) (k : Nat) : List (Nat × Nat) :=
  m.filter fun p => p.1 ≠ k

/-- From src/history.rs: `History::new`. Note `next_score` starts at 0. -/
def History.new (max_size : Nat) : History :=
  { entries := [], desktop_ids := [], next_score := 0, max_size := max_size }

/-- From src/history.rs: `History::add`. The first loop removes the first
older occurrence of the same entry (`List.erase` removes the first
occurrence); then the oldest entry (back) is dropped if the deque is at
capacity, and the new entry is pushed to the front. For a desktop-entry
result the recency map gets `next_score` (and `next_score` is bumped); the
cache lookup `get_entry` makes the operation `Option`-valued where Rust
would panic on an out-of-range id. -/
def History.add (h : History) (result : SearchMatchKind)
    (cache : DesktopEntryCache) : Option History :=
  let step : Option (History × HistEntry) :=
    match result with
    | .PathEntry path => some (h, .Path path)
    | .DeskopEntry data =>
      (cache.get_entry data.id).map fun e =>
        ({ h with
            desktop_ids := mapInsert h.desktop_ids data.id h.next_score,
            next_score := h.next_score + 1 },
         .DesktopEntry e.file_name)
  step.map fun (h, entry) =>
    let entries := h.entries.erase entry
    let entries :=
      if entries.length = h.max_size then entries.dropLast else entries
    { h with entries := entry :: entries }

/-- From src/history.rs: `History::renew` — move the entry at the given
position to the front (`none` where the Rust `unwrap` would panic). -/
def History.renew (h : History) (id : Nat) : Option History :=
  (h.entries[id]?).map fun entry =>
    { h with entries := entry :: h.entries.eraseIdx id }

/-- From src/history.rs: `History::delete` — remove the entry at the given
position; a desktop entry is also removed from the recency map (`none`
wherever one of the Rust `unwrap`s would panic). -/
def History.delete (h : History) (id : Nat) (cache : DesktopEntryCache) :
    Option History :=
  (h.entries[id]?).bind fun entry =>
    match entry with
    | .Path _ => some { h with entries := h.entries.eraseIdx id }
    | .DesktopEntry file_name =>
      (cache.find_file file_name).bind fun cid =>
        if h.desktop_ids.any (fun p => p.1 = cid) then
          some { h with
                  entries := h.entries.eraseIdx id,
                  desktop_ids := mapRemove h.desktop_ids cid }
        else
          none

/-- From src/static_units.rs: `SiPrefix` (shortened name). -/
inductive SiPref where
  | Yotta | Zetta | Exa | Peta | Tera | Giga | Mega | Kilo | Hecto | Deka
  | Deci | Centi | NoPfx | Milli | Micro | Nano | Pico | Femto | Atto
  | Zepto | Yocto
deriving DecidableEq

/-- From src/static_units.rs: the prefix table of
`SiPrefix::from_start_of_str`, in source order (sorted by length; the empty
prefix at the end matches everything, so the function never returns
`None`). -/
def siPrefTable : List (String × SiPref × Nat) :=
  [("zepto", .Zepto, 5), ("yocto", .Yocto, 5), ("femto", .Femto, 5),
   ("centi", .Centi, 5), ("milli", .Milli, 5), ("micro", .Micro, 5),
   ("hecto", .Hecto, 5), ("yotta", .Yotta, 5), ("zetta", .Zetta, 5),
   ("peta", .Peta, 4), ("tera", .Tera, 4), ("giga", .Giga, 4),
   ("mega", .Mega, 4), ("kilo", .Kilo, 4), ("deka", .Deka, 4),
   ("deci", .Deci, 4), ("nano", .Nano, 4), ("pico", .Pico, 4),
   ("atto", .Atto, 4), ("exa", .Exa, 3), ("da", .Deka, 2),
   ("Y", .Yotta, 1), ("Z", .Zetta, 1), ("E", .Exa, 1), ("P", .Peta, 1),
   ("T", .Tera, 1), ("G", .Giga, 1), ("M", .Mega, 1), ("k", .Kilo, 1),
   ("h", .Hecto, 1), ("d", .Deci, 1), ("c", .Centi, 1), ("m", .Milli, 1),
   ("µ", .Micro, 1), ("u", .Micro, 1), ("n", .Nano, 1), ("p", .Pico, 1),
   ("f", .Femto, 1), ("a", .Atto, 1), ("z", .Zepto, 1), ("y", .Yocto, 1),
   ("", .NoPfx, 0)]

/-- From src/static_units.rs: `SiPrefix::from_start_of_str` — first table
entry that is a prefix of the string wins. -/
def SiPref.from_start_of_str (s : String) : Option (SiPref × Nat) :=
  (siPrefTable.find? fun t => s.startsWith t.1).map fun t => (t.2.1, t.2.2)

/-- From src/static_units.rs: `Distance`. -/
inductive Distance where
  | Meter : SiPref → Distance
  | Inch | Feet | Yard | Mile
deriving DecidableEq

/-- From src/static_units.rs: `Mass`. -/
inductive Mass where
  | Gram : SiPref → Mass
  | Ounce | Pound | Stone
deriving DecidableEq

/-- From src/static_units.rs: `Area`. -/
inductive Area where
  | SquareMeter : SiPref → Area
  | SquareInch | SquareFeet | SquareYard | SquareMile | Hectare | Acre
deriving DecidableEq

/-- From src/static_units.rs: `Volume`. -/
inductive Volume where
  | Liter : SiPref → Volume
  | Gallon | Quart | Pint | Cup | FluidOunce | Tablespoon | Teaspoon
deriving DecidableEq

/-- From src/static_units.rs: `Temperature`. -/
inductive Temperature where
  | Celsius | Fahrenheit | Kelvin
deriving DecidableEq

/-- From src/static_units.rs: `SpeedTime`. -/
inductive SpeedTime where
  | Second : SiPref → SpeedTime
  | Minute | Hour
deriving DecidableEq

/-- From src/static_units.rs: `SpeedTime::from_str`. -/
def SpeedTime.from_str : String → Option SpeedTime
  | "s" => some (.Second .NoPfx)
  | "min" => some .Minute
  | "h" => some .Hour
  | _ => none

/-- From src/static_units.rs: `Speed`. -/
structure Speed where
  distance : Distance
  time : SpeedTime
deriving DecidableEq

/-- From src/units.rs: `Unit`. The `CurrencyKey` (a slotmap key into the
runtime currency table) is modelled as a `Nat`. -/
inductive Unit where
  | Distance : Distance → Unit
  | Mass : Mass → Unit
  | Area : Area → Unit
  | Volume : Volume → Unit
  | Temperature : Temperature → Unit
  | Speed : Speed → Unit
  | Currency : Nat → Unit
deriving DecidableEq

/-- The big `match` inside the candidates loop of `static_unit_from_str`
(src/static_units.rs lines 509–590): one candidate string with the prefix
that was stripped to obtain it. -/
def staticUnitTable (s : String) (pfx : SiPref) : Option Unit :=
  match s with
  | "m" => some (.Distance (.Meter pfx))
  | "meter" => some (.Distance (.Meter pfx))
  | "meters" => some (.Distance (.Meter pfx))
  | "in" => some (.Distance .Inch)
  | "inch" => some (.Distance .Inch)
  | "inches" => some (.Distance .Inch)
  | "ft" => some (.Distance .Feet)
  | "foot" => some (.Distance .Feet)
  | "feet" => some (.Distance .Feet)
  | "yd" => some (.Distance .Yard)
  | "yard" => some (.Distance .Yard)
  | "yards" => some (.Distance .Yard)
  | "mi" => some (.Distance .Mile)
  | "mile" => some (.Distance .Mile)
  | "miles" => some (.Distance .Mile)
  | "g" => some (.Mass (.Gram pfx))
  | "gram" => some (.Mass (.Gram pfx))
  | "grams" => some (.Mass (.Gram pfx))
  | "ton" => some (.Mass (.Gram .Mega))
  | "tons" => some (.Mass (.Gram .Mega))
  | "tonne" => some (.Mass (.Gram .Mega))
  | "tonnes" => some (.Mass (.Gram .Mega))
  | "oz" => some (.Mass .Ounce)
  | "ounce" => some (.Mass .Ounce)
  | "ounces" => some (.Mass .Ounce)
  | "lb" => some (.Mass .Pound)
  | "pound" => some (.Mass .Pound)
  | "pounds" => some (.Mass .Pound)
  | "st" => some (.Mass .Stone)
  | "stone" => some (.Mass .Stone)
  | "stones" => some (.Mass .Stone)
  | "m2" => some (.Area (.SquareMeter pfx))
  | "meter2" => some (.Area (.SquareMeter pfx))
  | "in2" => some (.Area .SquareInch)
  | "inch2" => some (.Area .SquareInch)
  | "ft2" => some (.Area .SquareFeet)
  | "feet2" => some (.Area .SquareFeet)
  | "yd2" => some (.Area .SquareYard)
  | "yard2" => some (.Area .SquareYard)
  | "mi2" => some (.Area .SquareMile)
  | "mile2" => some (.Area .SquareMile)
  | "miles2" => some (.Area .SquareMile)
  | "ha" => some (.Area .Hectare)
  | "hectare" => some (.Area .Hectare)
  | "ac" => some (.Area .Acre)
  | "acre" => some (.Area .Acre)
  | "l" => some (.Volume (.Liter pfx))
  | "liter" => some (.Volume (.Liter pfx))
  | "liters" => some (.Volume (.Liter pfx))
  | "gal" => some (.Volume .Gallon)
  | "gallon" => some (.Volume .Gallon)
  | "gallons" => some (.Volume .Gallon)
  | "qt" => some (.Volume .Quart)
  | "quart" => some (.Volume .Quart)
  | "quarts" => some (.Volume .Quart)
  | "pt" => some (.Volume .Pint)
  | "pint" => some (.Volume .Pint)
  | "pints" => some (.Volume .Pint)
  | "cup" => some (.Volume .Cup)
  | "cups" => some (.Volume .Cup)
  | "floz" => some (.Volume .FluidOunce)
  | "fluidounce" => some (.Volume .FluidOunce)
  | "fluidounces" => some (.Volume .FluidOunce)
  | "tbsp" => some (.Volume .Tablespoon)
  | "tablespoon" => some (.Volume .Tablespoon)
  | "tablespoons" => some (.Volume .Tablespoon)
  | "tsp" => some (.Volume .Teaspoon)
  | "teaspoon" => some (.Volume .Teaspoon)
  | "teaspoons" => some (.Volume .Teaspoon)
  | "C" => some (.Temperature .Celsius)
  | "F" => some (.Temperature .Fahrenheit)
  | "K" => some (.Temperature .Kelvin)
  | _ => none

/-- The candidates loop plus the `kph`/`mph` match of `static_unit_from_str`
(everything before the `/`-split). The prefix is stripped at character
granularity; the byte-granularity slice of the source coincides on every
ASCII input (the sole multi-byte table prefix, `µ`, records length 1 and
makes the Rust byte slice panic on a char boundary). -/
def static_unit_core (s : String) : Option Unit :=
  let candidates : List (String × SiPref) :=
    match SiPref.from_start_of_str s with
    | some (pfx, len) => [(s, .NoPfx), (⟨s.data.drop len⟩, pfx)]
    | none => [(s, .NoPfx)]
  let fromTable := candidates.firstM fun c => staticUnitTable c.1 c.2
  fromTable.orElse fun _ =>
    match s with
    | "kph" => some (.Speed { distance := .Meter .Kilo, time := .Hour })
    | "mph" => some (.Speed { distance := .Mile, time := .Hour })
    | _ => none

/-- From src/static_units.rs: `static_unit_from_str`. The source recurses on
the part before the first `/` for speeds; that substring contains no `/`,
so the recursive call can only hit the non-slash part, embedded here as
`static_unit_core`. -/
def static_unit_from_str (s : String) : Option Unit :=
  (static_unit_core s).orElse fun _ =>
    match s.data.findIdx? (· = '/') with
    | none => none
    | some middle =>
      let diststr : String := ⟨s.data.take middle⟩
      let timestr : String := ⟨s.data.drop (middle + 1)⟩
      let dist :=
        match static_unit_core diststr with
        | some (.Distance d) => some d
        | _ => none
      match dist, SpeedTime.from_str timestr with
      | some distance, some time => some (.Speed { distance, time })
      | _, _ => none

/-- From src/units.rs: `Unit::from_str`, parameterised by the runtime
currency table (`currency` in units.rs looks names and codes up in
runtime-populated maps). -/
def Unit.from_str (currency : String → Option Nat) (s : String) :
    Option Unit :=
  match static_unit_from_str s with
  | some unit => some unit
  | none => (currency s).map .Currency

/-- From src/content.rs: `Token`. -/
inductive Token where
  | Number : ℚ → Token
  | Text : String → Token
  | Symbol : Char → Token
deriving DecidableEq

/-- From src/content.rs: `is_extended_text_char` (`/` is treated as a
letter so `km/h` stays one token). -/
def is_extended_text_char (c : Char) : Bool := c = '/'

/-- The start-of-letter test of `lex` (src/content.rs line 160):
`b.is_ascii_alphabetic() || (b & 0xC0) != 0 || is_extended_text_char(b)`,
at character granularity. A non-ASCII character's first UTF-8 byte is
always ≥ 0xC0, and the `is_letter` loop of the source skips whole UTF-8
sequences, so at `Char` level the byte test becomes: ASCII characters test
their own code, non-ASCII characters always count as letters. -/
def is_letter_char (c : Char) : Bool :=
  c.isAlpha || is_extended_text_char c || 0x80 ≤ c.toNat ||
    c.toNat &&& 0xC0 != 0

/-- The number-scanning loop of `lex` (src/content.rs lines 141–156):
returns the collected characters (digits, plus the first `.` or `,` turned
into a decimal point) and the total number of input characters consumed
(collected plus skipped `_` grouping characters — the source's
`string.len() + overhead`). A second `.` or `,` hits the `break` arm. -/
def scan_number : List Char → Bool → List Char × Nat
  | [], _ => ([], 0)
  | c :: rest, saw =>
    if c.isDigit then
      let (s, n) := scan_number rest saw
      (c :: s, n + 1)
    else if (c = '.' ∨ c = ',') ∧ saw = false then
      let (s, n) := scan_number rest true
      ('.' :: s, n + 1)
    else if c = '_' then
      let (s, n) := scan_number rest saw
      (s, n + 1)
    else ([], 0)

/-- Numeric value of a digit character. -/
def digitVal (c : Char) : Nat := c.toNat - 48

/-- Value of a digit run. -/
def digitsVal (ds : List Char) : Nat :=
  ds.foldl (fun a c => a * 10 + digitVal c) 0

/-- Rust `str::parse::<f64>` on the collected number characters (digits
with at most one `.`), as an exact rational. -/
def ratOfNumChars (cs : List Char) : ℚ :=
  let ip := cs.takeWhile (· ≠ '.')
  let fp := (cs.dropWhile (· ≠ '.')).drop 1
  (digitsVal ip : ℚ) + (digitsVal fp : ℚ) / 10 ^ fp.length

/-- From src/content.rs: the body of `lex`, over the character list. -/
def lexChars (cs : List Char) : List Token :=
  match cs with
  | [] => []
  | c :: rest =>
    if hd : c.isDigit then
      let scanned := scan_number (c :: rest) false
      .Number (ratOfNumChars scanned.1) :: lexChars ((c :: rest).drop scanned.2)
    else if is_letter_char c then
      .Text ⟨(c :: rest).takeWhile is_letter_char⟩ ::
        lexChars ((c :: rest).dropWhile is_letter_char)
    else if c = ' ' then
      lexChars rest
    else
      .Symbol c :: lexChars rest
termination_by cs.length
decreasing_by
  · have h1 : 1 ≤ (scan_number (c :: rest) false).2 := by
      simp only [scan_number, hd, if_true]
      omega
    simp only [List.length_drop, List.length_cons]
    omega
  · simp only [List.dropWhile]
    have : is_letter_char c = true := by assumption
    simp only [this, if_true]
    have := (List.dropWhile_sublist (p := is_letter_char) (l := rest)).length_le
    simp only [List.length_cons]
    omega
  · simp only [List.length_cons]; omega
  · simp only [List.length_cons]; omega

/-- From src/content.rs: `lex`. -/
def lex (s : String) : List Token := lexChars s.data

/-- From src/content.rs: `ClassificationError`. -/
inductive ClassificationError where
  | InvalidUnit | InvalidToUnit | InvalidConversion | MissingToUnit
deriving DecidableEq

/-- From src/content.rs: `Content`. The `LeadExpression` payload (a
`Result<f64, meval::Error>`) is modelled as `Option ℚ` (the evaluation of
`meval` expressions is outside the claims). -/
inductive Content where
  | BasicExpression : ℚ → Content
  | LeadExpression : Option ℚ → Content
  | DefaultConversion : ℚ → Unit → Content
  | Conversion : ℚ → Option Unit → Unit → Content
  | Path | URL | Command
deriving DecidableEq

instance exceptDecEq {ε α : Type} [DecidableEq ε] [DecidableEq α] :
    DecidableEq (Except ε α) := fun a b =>
  match a, b with
  | .ok x, .ok y =>
    if h : x = y then isTrue (by rw [h]) else isFalse (by simp [h])
  | .error x, .error y =>
    if h : x = y then isTrue (by rw [h]) else isFalse (by simp [h])
  | .ok _, .error _ => isFalse (fun h => Except.noConfusion h)
  | .error _, .ok _ => isFalse (fun h => Except.noConfusion h)

/-- From src/content.rs: the nested `get_unit` helper of
`classify_unchecked` — consume one `Text` token if it parses as a unit,
returning the unit and the updated index. -/
def get_unit (fromStr : String → Option Unit) (tokens : List Token)
    (index : Nat) : Option Unit × Nat :=
  match tokens[index]? with
  | some (Token.Text t) =>
    match fromStr t with
    | some unit => (some unit, index + 1)
    | none => (none, index)
  | _ => (none, index)

/-- The apostrophe and double-quote characters (written by code to respect
the source's `'` and `'"'` literals). -/
def quoteChar : Char := Char.ofNat 39

def dquoteChar : Char := Char.ofNat 34

/-- From src/content.rs: the token-level tail of
`ContentClassifier::classify_unchecked` (lines 258–351) — everything after
the string-level branches (empty input, leading `=`, leading `$`,
filesystem path, URL, plain arithmetic), which involve I/O, a regex and the
`meval` crate and are not part of any token-level claim. Parameterised by
the runtime currency table used by `Unit::from_str`. -/
def classify_tokens (currency : String → Option Nat) (tokens : List Token) :
    Except ClassificationError (Option Content) :=
  let fromStr := Unit.from_str currency
  let first : Nat × Bool × ℚ :=
    match tokens[0]? with
    | some (Token.Number n) => (1, false, n)
    | _ => (0, true, 1)
  let index := first.1
  let no_number := first.2.1
  let num := first.2.2
  let potentially_have_unit_a :=
    match tokens[1]? with
    | some (Token.Text _) => true
    | _ => false
  let ua := get_unit fromStr tokens index
  let unit_a := ua.1
  let index := ua.2
  let second : Option Unit × Bool × Bool :=
    match tokens[index]? with
    | some (Token.Text t) =>
      if t = "to" ∨ t = "in" ∨ t = "as" then
        if t = "in" ∧ tokens.length = index + 1 then
          (some (.Distance .Inch), false, false)
        else
          ((get_unit fromStr tokens (index + 1)).1, true, true)
      else
        (fromStr t, false, false)
    | _ => (none, false, false)
  let unit_b := second.1
  let potentially_have_unit_b := second.2.1
  let have_conversion_word := second.2.2
  if unit_a = none ∧ potentially_have_unit_a = true ∧ unit_b = none then
    .error .InvalidUnit
  else if unit_a ≠ none ∧ unit_b = none ∧ potentially_have_unit_b = true ∧
      have_conversion_word = false then
    .error .InvalidToUnit
  else
    let expected_token_count :=
      (if no_number then 0 else 1) + (if unit_a.isSome then 1 else 0) +
        (if unit_b.isSome then 1 else 0) +
        (if have_conversion_word then 1 else 0)
    if tokens.length ≠ expected_token_count then
      .ok none
    else
      match unit_b with
      | some ub => .ok (some (.Conversion num unit_a ub))
      | none =>
        match unit_a with
        | some ua =>
          if have_conversion_word then .error .MissingToUnit
          else .ok (some (.DefaultConversion num ua))
        | none =>
          match tokens[1]? with
          | some (Token.Symbol c) =>
            if c = quoteChar then
              match tokens[2]? with
              | some (Token.Number maybe_inch) =>
                match tokens[3]? with
                | some (Token.Symbol d) =>
                  if d = dquoteChar then
                    .ok (some (.DefaultConversion (num * 12 + maybe_inch)
                      (.Distance .Inch)))
                  else .ok (some (.DefaultConversion num (.Distance .Feet)))
                | _ => .ok (some (.DefaultConversion num (.Distance .Feet)))
              | _ => .ok (some (.DefaultConversion num (.Distance .Feet)))
            else .ok none
          | _ => .ok none

/-- A `std::io::Error`, identified by its message. -/
structure IOErr where
  msg : String
deriving DecidableEq

/-- The entry list together with the stored error field of
`DesktopEntryCache` as mutated by `rebuild`. -/
structure CacheState where
  entries : List Entry
  error : Option IOErr
deriving DecidableEq

/-- The deduplication pass at the end of `rebuild` (src/cache.rs lines
262–271): `retain` keeps an entry iff its `file_name` hash was newly
inserted, i.e. the first occurrence of each file name wins (the source
hashes the name; the hash-collision caveat is the source's own comment). -/
def dedupByFileName : List Entry → List String → List Entry
  | [], _ => []
  | e :: rest, seen =>
    if e.file_name ∈ seen then dedupByFileName rest seen
    else e :: dedupByFileName rest (e.file_name :: seen)

/-- One iteration of the directory loop of `rebuild` (src/cache.rs lines
223–261): a failed `read_dir` stores the error and `continue`s without
touching the entries; a successful read clears the error and appends the
entries parsed from that directory. -/
def rebuild_dir_step (st : CacheState) (dir : Except IOErr (List Entry)) :
    CacheState :=
  match dir with
  | .error e => { st with error := some e }
  | .ok es => { entries := st.entries ++ es, error := none }

/-- From src/cache.rs: `DesktopEntryCache::rebuild`, with the filesystem
modelled as the per-directory outcome list (either the I/O error of
`read_dir` or the entries parsed from the directory's files). The entry
list is cleared first; the stored error field carries over from the
previous state when the directory list is empty. -/
def rebuild_model (st : CacheState) (dirs : List (Except IOErr (List Entry))) :
    CacheState :=
  let looped := dirs.foldl rebuild_dir_step { st with entries := [] }
  { looped with entries := dedupByFileName looped.entries [] }

/-- The cache-id of a history entry: desktop entries resolve through
`DesktopEntryCache::find_file`, path entries have none. This is how
`History::delete` locates the recency-map key of a sequence entry. -/
def entryKey (c : DesktopEntryCache) : HistEntry → Option Nat
  | .Path _ => none
  | .DesktopEntry f => c.find_file f

/-- The key set of the desktop-id recency map. -/
def History.histKeys (h : History) : List Nat := h.desktop_ids.map Prod.fst

/-- Whether a history entry is a path entry. -/
def HistEntry.isPathB : HistEntry → Bool
  | .Path _ => true
  | .DesktopEntry _ => false

/-- The claimed correspondence invariant between the two structures of
`History`: the recency map has no duplicate keys, every desktop entry of
the sequence resolves to a cache id, and the multiset of cache ids of the
sequence's desktop entries is exactly the key set of the recency map
(together: every key has exactly one position and every desktop entry has
exactly one map entry). -/
def History.Inv (c : DesktopEntryCache) (h : History) : Prop :=
  h.histKeys.Nodup ∧
  (∀ e ∈ h.entries, ∀ f, e = HistEntry.DesktopEntry f → (c.find_file f).isSome) ∧
  (h.entries.filterMap (entryKey c)).Perm h.histKeys

instance (c : DesktopEntryCache) (h : History) : Decidable (h.Inv c) :=
  decidable_of_iff
    (h.histKeys.Nodup ∧
      (∀ e ∈ h.entries, (entryKey c e).isNone → e.isPathB) ∧
      (h.entries.filterMap (entryKey c)).Perm h.histKeys)
    (by
      unfold History.Inv
      constructor
      · rintro ⟨a, b, d⟩
        refine ⟨a, ?_, d⟩
        intro e he f hf
        subst hf
        cases hk : c.find_file f with
        | some v => rfl
        | none =>
          have := b _ he (by simp [entryKey, hk])
          simp [HistEntry.isPathB] at this
      · rintro ⟨a, b, d⟩
        refine ⟨a, ?_, d⟩
        intro e he hn
        cases e with
        | Path p => rfl
        | DesktopEntry f =>
          have := b _ he f rfl
          simp only [entryKey, Option.isNone_iff_eq_none] at hn
          rw [hn] at this
          simp at this)

/-- Well-formedness of the desktop entry cache as established by `rebuild`:
file names are pairwise distinct (the deduplication pass). -/
def DesktopEntryCache.WF (c : DesktopEntryCache) : Prop :=
  (c.entries.map Entry.file_name).Nodup

instance (c : DesktopEntryCache) : Decidable c.WF :=
  inferInstanceAs (Decidable ((c.entries.map Entry.file_name).Nodup))

/-! Sample data shared by the concrete counterexamples and witnesses. -/

/-- A desktop entry with file name `a.desktop`. -/
def sampleEntryA : Entry :=
  ⟨"AppA", none, none, none, "a.desktop", "appa", none⟩

/-- A desktop entry with file name `b.desktop`. -/
def sampleEntryB : Entry :=
  ⟨"AppB", none, none, none, "b.desktop", "appb", none⟩

/-- A two-entry desktop cache. -/
def sampleCache : DesktopEntryCache := ⟨[sampleEntryA, sampleEntryB]⟩

/-- Search-result data referring to cache id 0. -/
def sampleDataA : DesktopEntryData := ⟨0, "AppA", none⟩

/-- Search-result data referring to cache id 1. -/
def sampleDataB : DesktopEntryData := ⟨1, "AppB", none⟩

/-- The per-id step of `find_subset`, abbreviated. -/
def subsetStep (jw : String → String → ℚ) (c : DesktopEntryCache)
    (name : String) (id : Nat) : Option EntryMatch :=
  (c.entries[id]?).bind fun e =>
    (check_entry jw name e).map fun f => { id := id, field := f }

/-- Whether `History::add` of the given (already-constructed) history entry
would evict a desktop entry: the sequence is still at capacity after the
duplicate-removal pass and its back element is a desktop entry. -/
def History.addEvictsDesktop (h : History) (entry : HistEntry) : Bool :=
  decide ((h.entries.erase entry).length = h.max_size) &&
    match (h.entries.erase entry).getLast? with
    | some (.DesktopEntry _) => true
    | _ => false

/-- The entry list actually stored by `add` after the optional eviction. -/
def addEntries (h : History) (entry : HistEntry) : List HistEntry :=
  let entries := h.entries.erase entry
  if entries.length = h.max_size then entries.dropLast else entries

/-! Helper lemmas about the comparison primitives. -/

theorem charsCmp_self (l : List Char) : charsCmp l l = .eq := by
  induction l with
  | nil => rfl
  | cons a t ih => simp [charsCmp, ih]

theorem charsCmp_swap (l₁ l₂ : List Char) :
    charsCmp l₂ l₁ = (charsCmp l₁ l₂).swap := by
  induction l₁ generalizing l₂ with
  | nil => cases l₂ <;> rfl
  | cons a t ih =>
    cases l₂ with
    | nil => rfl
    | cons b u =>
      simp only [charsCmp]
      rcases Nat.lt_trichotomy a.toNat b.toNat with hlt | heq | hgt
      · simp only [hlt, Nat.not_lt.mpr (Nat.le_of_lt hlt), if_true, if_false]
        rfl
      · simp [heq, Nat.lt_irrefl, ih]
      · simp only [hgt, Nat.not_lt.mpr (Nat.le_of_lt hgt), if_true, if_false]
        rfl

theorem ratCmp_swap (a b : ℚ) : ratCmp b a = (ratCmp a b).swap := by
  unfold ratCmp
  rcases lt_trichotomy a b with h | h | h
  · simp only [h, not_lt.mpr h.le, if_true, if_false]
    rfl
  · simp only [h, lt_irrefl, if_false]
    rfl
  · simp only [h, not_lt.mpr h.le, if_true, if_false]
    rfl

/-- Claim C1 (code bug): the claim says the recency rank counts upward from
1 for the oldest retained history entry, so that multiplying a score by
`2 * recency_rank` makes history membership dominate. The code contradicts
this: `History::new` starts `next_score` at 0, so the very first entry
added to a fresh history receives recency rank 0, and `sort_search_results`
then multiplies its score by `2 * 0 = 0` — the just-launched application
(here with the maximal exact-match score 1.2) is ranked *below* a plain
path match with score 0.9, while its `is_in_history` flag is set. This
also contradicts the source's own comments (`History::load` assigns ranks
`1..=N`, and the comment in `sort_search_results` claims the multiplier
matches the always-on-top behaviour except for recency 1 or 2). -/
theorem C1_fresh_history_rank_zero :
    ((History.new 100).add (.DeskopEntry sampleDataA) sampleCache).map
        History.desktop_ids = some [(0, 0)] ∧
    sort_search_results
        [SearchMatch.new (.DeskopEntry sampleDataA) (12/10),
         SearchMatch.new (.PathEntry "/usr/bin/zz") (9/10)]
        [(0, 0)] =
      [{ match_ := .PathEntry "/usr/bin/zz", score := 9/10,
         is_in_history := false },
       { match_ := .DeskopEntry sampleDataA, score := 0,
         is_in_history := true }] := by
  constructor
  · with_unfolding_all decide
  · with_unfolding_all decide

/-- Claim C3, counterexample: the claim orders the field weights as
localized name, then name, then localized generic name — but in the code
the name weight (1.2) is strictly *below* the localized generic name
weight (1.3). -/
theorem C3_weight_order_counterexample :
    get_field_scale (.Name .Exact) <
      get_field_scale (.LocalizedGenericName .Exact) := by
  with_unfolding_all decide

/-- Claim C3 as amended: an `Exact` match yields the fixed base constant
1.2 for every field, a `Similar(s)` match yields `s` times the per-field
weight, and the weight ordering is localized name (1.4) highest, then
localized generic name (1.3), then name (1.2), then generic name (1.1),
with file identifier (0.8) lowest; path matches use the separate flat
weight `PATH_WEIGHT`. -/
theorem C3_score_contract :
    (∀ f : MatchField, f.inner = .Exact →
      desktop_entry_score f = scores.EXACT_BASE) ∧
    (∀ s : ℚ,
      desktop_entry_score (.LocalizedName (.Similar s)) =
        s * scores.LOCALIZED_NAME_WEIGHT ∧
      desktop_entry_score (.Name (.Similar s)) = s * scores.NAME_WEIGHT ∧
      desktop_entry_score (.LocalizedGenericName (.Similar s)) =
        s * scores.LOCALIZED_GENERIC_NAME_WEIGHT ∧
      desktop_entry_score (.GenericName (.Similar s)) =
        s * scores.GENERIC_NAME_WEIGHT ∧
      desktop_entry_score (.FileName (.Similar s)) =
        s * scores.FILE_NAME_WEIGHT) ∧
    (scores.FILE_NAME_WEIGHT < scores.GENERIC_NAME_WEIGHT ∧
      scores.GENERIC_NAME_WEIGHT < scores.NAME_WEIGHT ∧
      scores.NAME_WEIGHT < scores.LOCALIZED_GENERIC_NAME_WEIGHT ∧
      scores.LOCALIZED_GENERIC_NAME_WEIGHT <
        scores.LOCALIZED_NAME_WEIGHT) := by
  refine ⟨?_, ?_, by with_unfolding_all decide⟩
  · intro f hf
    cases f <;> simp_all [desktop_entry_score, MatchField.inner]
  · intro s
    refine ⟨?_, ?_, ?_, ?_, ?_⟩ <;>
      simp [desktop_entry_score, MatchField.inner, get_field_scale]

/-- Claim C3 witness: the amended contract applied at a concrete field with
its hypothesis discharged. -/
theorem C3_score_contract_witness :
    desktop_entry_score (.FileName .Exact) = scores.EXACT_BASE :=
  C3_score_contract.1 (.FileName .Exact) (by decide)

/-- Claim C4, counterexample: the comparison relation is *not* transitive,
hence not a total order. With scores 0, 0.001 and 0.002 (names `a`, `b`,
`c`), adjacent scores are within the 1e-3 tie threshold and compare by
name (ascending), but the outer pair differs by more than the threshold
and compares by descending score: `A < B`, `B < C`, yet `A > C`. -/
theorem C4_not_transitive :
    (SearchMatch.new (.DeskopEntry ⟨0, "a", none⟩) 0).compare
        (SearchMatch.new (.DeskopEntry ⟨1, "b", none⟩) (1/1000)) = .lt ∧
    (SearchMatch.new (.DeskopEntry ⟨1, "b", none⟩) (1/1000)).compare
        (SearchMatch.new (.DeskopEntry ⟨2, "c", none⟩) (2/1000)) = .lt ∧
    (SearchMatch.new (.DeskopEntry ⟨0, "a", none⟩) 0).compare
        (SearchMatch.new (.DeskopEntry ⟨2, "c", none⟩) (2/1000)) = .gt := by
  exact ⟨by with_unfolding_all decide, by with_unfolding_all decide,
    by with_unfolding_all decide⟩

/-- Claim C4 as amended: the comparison is total and antisymmetric —
comparing in the opposite direction always yields the opposite ordering,
and every match ties with itself — and sorting is deterministic (the model
sort is a pure function of its input), but the relation is not transitive
(see the counterexample), so it is not a total order. -/
theorem C4_compare_total_antisymm (a b : SearchMatch)
    (l : List SearchMatch) (history : List (Nat × Nat)) :
    b.compare a = (a.compare b).swap ∧
    a.compare a = .eq ∧
    sort_search_results l history = sort_search_results l history := by
  refine ⟨?_, ?_, rfl⟩
  · unfold SearchMatch.compare
    rw [abs_sub_comm b.score a.score]
    by_cases h : |a.score - b.score| ≤ scores.EQUAL_THREHOLD
    · simp only [h, if_true]
      exact charsCmp_swap a.name.data b.name.data
    · simp only [h, if_false]
      exact ratCmp_swap b.score a.score
  · unfold SearchMatch.compare
    rw [sub_self, abs_zero, if_pos (by norm_num [scores.EQUAL_THREHOLD])]
    simp [strCmp, charsCmp_self]

/-- Claim C7: the field matcher returns `Exact` exactly when the two
(lowercased) strings are equal; otherwise it returns `Similar(s)` exactly
when the similarity `s` is at least the threshold 0.75 — a similarity of
exactly 0.75 is accepted and any smaller value (in particular one `f64`
ULP below, `0.75 - 2⁻⁵³`) is rejected — and `None` otherwise; the path
matcher's score test applies the same threshold rule. -/
theorem C7_threshold_contract (jw : String → String → ℚ) (n v : String) :
    (get_match jw n v = some .Exact ↔ v = n) ∧
    (∀ s : ℚ, get_match jw n v = some (.Similar s) ↔
      v ≠ n ∧ s = jw n v ∧ SIMILARITY_THRESHHOLD ≤ s) ∧
    (get_match jw n v = none ↔ v ≠ n ∧ jw n v < SIMILARITY_THRESHHOLD) ∧
    (∀ q : ℚ, path_entry_score jw n v = some q ↔
      (n = v ∧ q = scores.EXACT_BASE) ∨
        (n ≠ v ∧ q = jw n v ∧ SIMILARITY_THRESHHOLD ≤ q)) ∧
    (v ≠ n → get_match (fun _ _ => SIMILARITY_THRESHHOLD) n v =
      some (.Similar SIMILARITY_THRESHHOLD)) ∧
    (v ≠ n →
      get_match (fun _ _ => SIMILARITY_THRESHHOLD - 1 / 2 ^ 53) n v =
        none) := by
  refine ⟨?_, ?_, ?_, ?_, ?_, ?_⟩
  · unfold get_match
    by_cases h : v = n
    · simp [h]
    · by_cases h2 : SIMILARITY_THRESHHOLD ≤ jw n v <;> simp [h, h2]
  · intro s
    unfold get_match
    by_cases h : v = n
    · simp [h]
    · by_cases h2 : SIMILARITY_THRESHHOLD ≤ jw n v
      · simp only [h, if_false, h2, if_true, Option.some.injEq,
          MatchKind.Similar.injEq, ne_eq, not_false_iff, true_and]
        constructor
        · rintro rfl
          exact ⟨rfl, h2⟩
        · rintro ⟨rfl, _⟩
          rfl
      · simp [h, h2]
        rintro rfl
        exact lt_of_not_le h2
  · unfold get_match
    by_cases h : v = n
    · simp [h]
    · by_cases h2 : SIMILARITY_THRESHHOLD ≤ jw n v <;>
        simp [h, h2, lt_iff_not_ge]
  · intro q
    unfold path_entry_score
    by_cases h : n = v
    · simp [h]
      constructor
      · rintro rfl; rfl
      · rintro rfl; rfl
    · by_cases h2 : jw n v < SIMILARITY_THRESHHOLD
      · simp [h, h2]
        rintro rfl
        exact h2
      · simp only [h, if_false, h2, Option.some.injEq, ne_eq,
          not_false_iff, true_and, false_and, false_or]
        constructor
        · rintro rfl
          exact ⟨rfl, not_lt.mp h2⟩
        · rintro ⟨rfl, _⟩
          rfl
  · intro h
    unfold get_match
    simp [h]
  · intro h
    unfold get_match
    rw [if_neg h, if_neg (by norm_num [SIMILARITY_THRESHHOLD])]

/-- Claim C7 witness: the contract applied at a concrete metric and
concrete unequal strings, with the threshold boundary hypotheses
discharged. -/
theorem C7_threshold_contract_witness :
    get_match (fun _ _ => SIMILARITY_THRESHHOLD) "query" "value" =
      some (.Similar SIMILARITY_THRESHHOLD) ∧
    get_match (fun _ _ => SIMILARITY_THRESHHOLD - 1 / 2 ^ 53) "query"
      "value" = none :=
  ⟨(C7_threshold_contract (fun _ _ => SIMILARITY_THRESHHOLD) "query"
      "value").2.2.2.2.1 (by decide),
   (C7_threshold_contract (fun _ _ => SIMILARITY_THRESHHOLD - 1 / 2 ^ 53)
      "query" "value").2.2.2.2.2 (by decide)⟩

/-- Claim C9: `sort_search_results` only reorders the boosted list — its
output is a permutation of the per-element update applied to the input —
and that per-element update mutates exactly the desktop-entry matches
whose id is in the recency map (score multiplied, `is_in_history` set);
every path match and every desktop-entry match whose id is absent from the
map is returned entirely unchanged (score, flag and match identity). -/
theorem C9_sort_frame (results : List SearchMatch)
    (history : List (Nat × Nat)) :
    (sort_search_results results history).Perm
      (results.map (boost_history history)) ∧
    ∀ r : SearchMatch,
      (∀ data, r.match_ = .DeskopEntry data →
        (∀ rec, history.lookup data.id = some rec →
          boost_history history r =
            { r with score := r.score * (2 * (rec : ℚ)),
                     is_in_history := true }) ∧
        (history.lookup data.id = none → boost_history history r = r)) ∧
      (∀ p, r.match_ = .PathEntry p → boost_history history r = r) := by
  refine ⟨List.mergeSort_perm _ _, ?_⟩
  intro r
  refine ⟨?_, ?_⟩
  · intro data hdata
    constructor
    · intro rec hrec
      simp only [boost_history, hdata, hrec]
    · intro hrec
      simp only [boost_history, hdata, hrec]
  · intro p hp
    simp only [boost_history, hp]

/-- Claim C9 witness: the frame property applied at a concrete result list
and recency map, all three hypothesis shapes discharged on concrete
matches. -/
theorem C9_sort_frame_witness :
    boost_history [(0, 3)] (SearchMatch.new (.DeskopEntry sampleDataA) 1) =
      { match_ := .DeskopEntry sampleDataA, score := 1 * (2 * ((3 : Nat) : ℚ)),
        is_in_history := true } ∧
    boost_history [(0, 3)] (SearchMatch.new (.DeskopEntry sampleDataB) 1) =
      SearchMatch.new (.DeskopEntry sampleDataB) 1 ∧
    boost_history [(0, 3)] (SearchMatch.new (.PathEntry "/bin/sh") 1) =
      SearchMatch.new (.PathEntry "/bin/sh") 1 :=
  ⟨((C9_sort_frame [] [(0, 3)]).2
      (SearchMatch.new (.DeskopEntry sampleDataA) 1)).1 sampleDataA rfl
      |>.1 3 (by decide),
   ((C9_sort_frame [] [(0, 3)]).2
      (SearchMatch.new (.DeskopEntry sampleDataB) 1)).1 sampleDataB rfl
      |>.2 (by decide),
   ((C9_sort_frame [] [(0, 3)]).2
      (SearchMatch.new (.PathEntry "/bin/sh") 1)).2 "/bin/sh" rfl⟩

theorem rebuild_foldl_error (l : List (Except IOErr (List Entry)))
    (s : CacheState) :
    (l.foldl rebuild_dir_step s).error =
      match l.getLast? with
      | some (.error e) => some e
      | some (.ok _) => none
      | none => s.error := by
  induction l generalizing s with
  | nil => rfl
  | cons d t ih =>
    rw [List.foldl_cons, ih]
    cases t with
    | nil => cases d <;> rfl
    | cons d2 t2 =>
      rw [List.getLast?_cons_cons]
      cases hl : (d2 :: t2).getLast? with
      | none =>
        rw [List.getLast?_eq_none_iff] at hl
        exact absurd hl (by simp)
      | some x => cases x <;> rfl

/-- Claim C10: after `rebuild` scans the directory list in order, the
stored error reflects only the most recently attempted directory — an
earlier read failure is overwritten as soon as a later directory is
processed, so the stored error is the error of the last directory outcome
(`some` iff the last attempted directory was unreadable). -/
theorem C10_last_directory_error (st : CacheState)
    (dirs : List (Except IOErr (List Entry))) :
    (∀ e, dirs.getLast? = some (Except.error e) →
      (rebuild_model st dirs).error = some e) ∧
    (∀ es, dirs.getLast? = some (Except.ok es) →
      (rebuild_model st dirs).error = none) := by
  constructor
  · intro e he
    unfold rebuild_model
    simp only [rebuild_foldl_error, he]
  · intro es he
    unfold rebuild_model
    simp only [rebuild_foldl_error, he]

/-- Claim C10 witness: a failed first directory followed by a successful
second one leaves no stored error; flipping the order stores the error of
the (now last) failed directory. -/
theorem C10_last_directory_error_witness :
    (rebuild_model ⟨[], none⟩
      [Except.error ⟨"denied"⟩, Except.ok [sampleEntryA]]).error = none ∧
    (rebuild_model ⟨[], none⟩
      [Except.ok [sampleEntryA], Except.error ⟨"denied"⟩]).error =
        some ⟨"denied"⟩ :=
  ⟨(C10_last_directory_error ⟨[], none⟩
      [Except.error ⟨"denied"⟩, Except.ok [sampleEntryA]]).2 [sampleEntryA]
      (by decide),
   (C10_last_directory_error ⟨[], none⟩
      [Except.ok [sampleEntryA], Except.error ⟨"denied"⟩]).1 ⟨"denied"⟩
      (by decide)⟩

/-- Claim C5, counterexample: for the query `123cm in` — a number, a source
unit, and `in` as the only remaining token — the classifier does treat the
trailing `in` as inches and does not error, but the result is a
`Conversion` (with the source unit carried along), not a
`DefaultConversion` as the claim states. The repository's own test
(`content.rs`, `conversion`) asserts exactly this `Conversion` result. -/
theorem C5_source_unit_counterexample :
    classify_tokens (fun _ => none) (lex "123cm in") =
      .ok (some (.Conversion 123 (some (.Distance (.Meter .Centi)))
        (.Distance .Inch))) ∧
    ∀ (q : ℚ) (u : Unit), classify_tokens (fun _ => none) (lex "123cm in") ≠
      .ok (some (.DefaultConversion q u)) := by
  have h : classify_tokens (fun _ => none) (lex "123cm in") =
      .ok (some (.Conversion 123 (some (.Distance (.Meter .Centi)))
        (.Distance .Inch))) := by
    with_unfolding_all decide
  refine ⟨h, ?_⟩
  intro q u hqu
  rw [h] at hqu
  simp at hqu

/-- Claim C5 as amended: a bare trailing `in` (no destination token after
it) is treated as the unit inches rather than the conversion preposition,
and never errors — but the result shape depends on whether a source unit
precedes it: with a source unit `u` the special case fills in inches as
the *destination*, yielding `Conversion(n, Some(u), Inch)`; with no source
unit the token `in` itself parses as a unit (`Unit::from_str("in")` is
inches), yielding `DefaultConversion(n, Inch)`. -/
theorem C5_trailing_in (currency : String → Option Nat) (n : ℚ)
    (t : String) (u : Unit) (ht : Unit.from_str currency t = some u) :
    classify_tokens currency [.Number n, .Text t, .Text "in"] =
      .ok (some (.Conversion n (some u) (.Distance .Inch))) ∧
    classify_tokens currency [.Number n, .Text "in"] =
      .ok (some (.DefaultConversion n (.Distance .Inch))) := by
  have hin : Unit.from_str currency "in" = some (.Distance .Inch) := by
    unfold Unit.from_str
    rw [show static_unit_from_str "in" = some (.Distance .Inch) from by
      with_unfolding_all decide]
  constructor
  · simp [classify_tokens, get_unit, ht]
  · simp [classify_tokens, get_unit, hin]

/-- Claim C5 witness: the amended statement applied at the concrete query
`123cm in` (and `123 in`), the source-unit hypothesis discharged on the
concrete unit table. -/
theorem C5_trailing_in_witness :
    classify_tokens (fun _ => none) [.Number 123, .Text "cm", .Text "in"] =
      .ok (some (.Conversion 123 (some (.Distance (.Meter .Centi)))
        (.Distance .Inch))) ∧
    classify_tokens (fun _ => none) [.Number 123, .Text "in"] =
      .ok (some (.DefaultConversion 123 (.Distance .Inch))) :=
  C5_trailing_in (fun _ => none) 123 "cm" (.Distance (.Meter .Centi))
    (by with_unfolding_all decide)

/-! Helper lemmas about the number-scanning loop of the lexer. -/

theorem scan_number_digits (ds rest : List Char) (saw : Bool)
    (h : ∀ c ∈ ds, c.isDigit) :
    scan_number (ds ++ rest) saw =
      (ds ++ (scan_number rest saw).1,
        (scan_number rest saw).2 + ds.length) := by
  induction ds with
  | nil => simp
  | cons c t ih =>
    have hc : c.isDigit := h c (List.mem_cons_self c t)
    have ht : ∀ x ∈ t, x.isDigit := fun x hx => h x (List.mem_cons_of_mem c hx)
    have key := ih ht
    simp only [List.cons_append, scan_number, hc, if_true, List.append_eq]
      at key ⊢
    rw [key]
    simp only [Prod.fst, Prod.snd, Prod.mk.injEq, List.length_cons, true_and]
    omega

theorem scan_number_sep (s : Char) (rest : List Char)
    (hs : s = '.' ∨ s = ',') :
    scan_number (s :: rest) false =
      ('.' :: (scan_number rest true).1, (scan_number rest true).2 + 1) := by
  rcases hs with h | h <;> subst h <;> simp [scan_number]

theorem scan_number_underscore (rest : List Char) (saw : Bool) :
    scan_number ('_' :: rest) saw =
      ((scan_number rest saw).1, (scan_number rest saw).2 + 1) := by
  simp [scan_number]

theorem scan_number_sep_stop (s : Char) (rest : List Char)
    (hs : s = '.' ∨ s = ',') :
    scan_number (s :: rest) true = ([], 0) := by
  rcases hs with h | h <;> subst h <;> simp [scan_number]

theorem takeWhile_append_all (p : Char → Bool) (l₁ l₂ : List Char)
    (h : ∀ c ∈ l₁, p c) :
    (l₁ ++ l₂).takeWhile p = l₁ ++ l₂.takeWhile p := by
  induction l₁ with
  | nil => simp
  | cons c t ih =>
    have hc : p c := h c (List.mem_cons_self c t)
    simp only [List.cons_append, List.takeWhile_cons, hc, if_true,
      List.cons.injEq, true_and]
    exact ih fun x hx => h x (List.mem_cons_of_mem c hx)

theorem dropWhile_append_all (p : Char → Bool) (l₁ l₂ : List Char)
    (h : ∀ c ∈ l₁, p c) :
    (l₁ ++ l₂).dropWhile p = l₂.dropWhile p := by
  induction l₁ with
  | nil => simp
  | cons c t ih =>
    have hc : p c := h c (List.mem_cons_self c t)
    simp only [List.cons_append, List.dropWhile_cons, hc, if_true]
    exact ih fun x hx => h x (List.mem_cons_of_mem c hx)

theorem digit_ne_dot {c : Char} (h : c.isDigit) : (c ≠ '.') := by
  intro hc
  subst hc
  simp [Char.isDigit] at h

/-- Claim C6, counterexample: in `1.2.3` the first `.` becomes the decimal
point, but the second `.` is *not* treated as grouping noise — it
terminates the number token (the guard `!saw_decimal_point` fails and the
match falls to the `break` arm), so the lexer yields three tokens
`[Number 1.2, Symbol '.', Number 3]` instead of one number. -/
theorem C6_second_separator_counterexample :
    lex "1.2.3" = [.Number (6/5), .Symbol '.', .Number 3] ∧
    ∀ q : ℚ, lex "1.2.3" ≠ [.Number q] := by
  have h : lex "1.2.3" = [.Number (6/5), .Symbol '.', .Number 3] := by
    with_unfolding_all decide
  refine ⟨h, ?_⟩
  intro q hq
  rw [h] at hq
  simp at hq

theorem lexChars_digit (c : Char) (rest : List Char) (hc : c.isDigit) :
    lexChars (c :: rest) =
      .Number (ratOfNumChars (scan_number (c :: rest) false).1) ::
        lexChars ((c :: rest).drop (scan_number (c :: rest) false).2) := by
  rw [lexChars.eq_def]
  simp [hc]

theorem lexChars_symbol (c : Char) (rest : List Char) (h1 : ¬c.isDigit)
    (h2 : ¬is_letter_char c) (h3 : c ≠ ' ') :
    lexChars (c :: rest) = .Symbol c :: lexChars rest := by
  rw [lexChars.eq_def]
  simp [h1, h2, h3]

/-- Claim C6 as amended: a number token is lexed from a run of digits,
`_` grouping characters (which are silently skipped), and separators
`.`/`,`, of which the *first* becomes the decimal point; a *second*
separator terminates the number token (it is re-lexed as a `Symbol`, not
skipped as grouping noise). Stated for the general input shape
`digits _ digits sep digits sep rest`. -/
theorem C6_number_token (ds₁ ds₂ ds₃ more : List Char) (s₁ s₂ : Char)
    (h₁ : ds₁ ≠ []) (hd₁ : ∀ c ∈ ds₁, c.isDigit)
    (hd₂ : ∀ c ∈ ds₂, c.isDigit) (hd₃ : ∀ c ∈ ds₃, c.isDigit)
    (hs₁ : s₁ = '.' ∨ s₁ = ',') (hs₂ : s₂ = '.' ∨ s₂ = ',') :
    lexChars (ds₁ ++ ('_' :: (ds₂ ++ (s₁ :: (ds₃ ++ (s₂ :: more)))))) =
      .Number ((digitsVal (ds₁ ++ ds₂) : ℚ) +
        (digitsVal ds₃ : ℚ) / 10 ^ ds₃.length) ::
      .Symbol s₂ :: lexChars more := by
  have hscan :
      scan_number (ds₁ ++ ('_' :: (ds₂ ++ (s₁ :: (ds₃ ++ (s₂ :: more))))))
          false =
        (ds₁ ++ (ds₂ ++ ('.' :: ds₃)),
          ds₁.length + ds₂.length + ds₃.length + 2) := by
    rw [scan_number_digits _ _ _ hd₁, scan_number_underscore,
      scan_number_digits _ _ _ hd₂, scan_number_sep _ _ hs₁,
      scan_number_digits _ _ _ hd₃, scan_number_sep_stop _ _ hs₂]
    simp only [List.append_nil, Prod.mk.injEq, true_and]
    omega
  have hval : ratOfNumChars (ds₁ ++ (ds₂ ++ ('.' :: ds₃))) =
      (digitsVal (ds₁ ++ ds₂) : ℚ) +
        (digitsVal ds₃ : ℚ) / 10 ^ ds₃.length := by
    have hp₁ : ∀ c ∈ ds₁, (c ≠ '.' : Bool) := fun c hc => by
      simpa using digit_ne_dot (hd₁ c hc)
    have hp₂ : ∀ c ∈ ds₂, (c ≠ '.' : Bool) := fun c hc => by
      simpa using digit_ne_dot (hd₂ c hc)
    unfold ratOfNumChars
    rw [takeWhile_append_all _ _ _ hp₁, takeWhile_append_all _ _ _ hp₂,
      dropWhile_append_all _ _ _ hp₁, dropWhile_append_all _ _ _ hp₂]
    simp [List.takeWhile_cons, List.dropWhile_cons, List.append_assoc]
  have hdrop :
      (ds₁ ++ ('_' :: (ds₂ ++ (s₁ :: (ds₃ ++ (s₂ :: more)))))).drop
        (ds₁.length + ds₂.length + ds₃.length + 2) = s₂ :: more := by
    have hsplit :
        ds₁ ++ ('_' :: (ds₂ ++ (s₁ :: (ds₃ ++ (s₂ :: more))))) =
          (ds₁ ++ ('_' :: (ds₂ ++ (s₁ :: ds₃)))) ++ (s₂ :: more) := by
      simp [List.append_assoc]
    rw [hsplit, show ds₁.length + ds₂.length + ds₃.length + 2 =
      (ds₁ ++ ('_' :: (ds₂ ++ (s₁ :: ds₃)))).length from by simp; omega]
    exact List.drop_left _ _
  obtain ⟨c, t, rfl⟩ : ∃ c t, ds₁ = c :: t := by
    cases ds₁ with
    | nil => exact absurd rfl h₁
    | cons c t => exact ⟨c, t, rfl⟩
  have hc : c.isDigit := hd₁ c (List.mem_cons_self c t)
  rw [List.cons_append, lexChars_digit c _ hc, ← List.cons_append, hscan,
    hval, hdrop]
  have hsym : lexChars (s₂ :: more) = .Symbol s₂ :: lexChars more := by
    rcases hs₂ with h | h <;> subst h <;>
      exact lexChars_symbol _ _ (by decide) (by decide) (by decide)
  rw [hsym]

/-- Claim C6 witness: the amended number-token behaviour at the concrete
input `1_2.3,45x`: the `_` is skipped, the first `.` becomes the decimal
point, the `,` terminates the token. -/
theorem C6_number_token_witness :
    lexChars ['1', '_', '2', '.', '3', ',', '4', '5', 'x'] =
      .Number ((digitsVal ['1', '2'] : ℚ) +
        (digitsVal ['3'] : ℚ) / 10 ^ (['3'] : List Char).length) ::
      .Symbol ',' :: lexChars ['4', '5', 'x'] := by
  have h := C6_number_token ['1'] ['2'] ['3'] ['4', '5', 'x'] '.' ','
    (by decide) (by decide) (by decide) (by decide) (Or.inl rfl)
    (Or.inr rfl)
  simpa using h

/-! Helper lemmas for the subset-search claim. -/

theorem find_subset_eq_filterMap (jw : String → String → ℚ)
    (c : DesktopEntryCache) (name : String) (set : List Nat) :
    c.find_subset jw name set = set.filterMap (subsetStep jw c name) := rfl

theorem subsetStep_id (jw : String → String → ℚ) (c : DesktopEntryCache)
    (name : String) (id : Nat) (m : EntryMatch)
    (h : subsetStep jw c name id = some m) : m.id = id := by
  unfold subsetStep at h
  obtain ⟨e, he, h2⟩ := Option.bind_eq_some.mp h
  obtain ⟨f, hf, hm⟩ := Option.map_eq_some'.mp h2
  rw [← hm]

theorem filter_filterMap_subsetStep (jw : String → String → ℚ)
    (c : DesktopEntryCache) (name : String) (ids : List Nat)
    (l : List Nat) :
    (l.filterMap (subsetStep jw c name)).filter
        (fun m => decide (m.id ∈ ids)) =
      (l.filter (fun id => decide (id ∈ ids))).filterMap
        (subsetStep jw c name) := by
  induction l with
  | nil => rfl
  | cons a t ih =>
    cases hF : subsetStep jw c name a with
    | none =>
      by_cases ha : a ∈ ids <;>
        simp [List.filterMap_cons, List.filter_cons, hF, ha, ih]
    | some m =>
      have hid : m.id = a := subsetStep_id _ _ _ _ _ hF
      by_cases ha : a ∈ ids <;>
        simp [List.filterMap_cons, List.filter_cons, hF, ha, hid, ih]

/-- Claim C8: every match returned by `find_subset(q, ids)` has an id
contained in `ids`, and (for a duplicate-free set of in-range ids) the
returned matches are exactly the matches of `find_all(q)` restricted to
the entries whose id is in `ids` (as a permutation: `find_subset` emits
them in the order of `ids`, `find_all` in ascending id order). -/
theorem C8_find_subset_restriction (jw : String → String → ℚ)
    (c : DesktopEntryCache) (q : String) (ids : List Nat)
    (hnd : ids.Nodup) (hb : ∀ id ∈ ids, id < c.entries.length) :
    (∀ m ∈ c.find_subset jw q ids, m.id ∈ ids) ∧
    (c.find_subset jw q ids).Perm
      ((c.find_all jw q).filter (fun m => decide (m.id ∈ ids))) := by
  constructor
  · intro m hm
    rw [find_subset_eq_filterMap] at hm
    obtain ⟨id, hid, hF⟩ := List.mem_filterMap.mp hm
    rw [subsetStep_id jw c q id m hF]
    exact hid
  · have hperm : ids.Perm
        ((List.range c.entries.length).filter
          (fun id => decide (id ∈ ids))) := by
      rw [List.perm_ext_iff_of_nodup hnd
        (List.Nodup.filter _ (List.nodup_range _))]
      intro a
      simp only [List.mem_filter, List.mem_range, decide_eq_true_eq]
      constructor
      · intro ha
        exact ⟨hb a ha, ha⟩
      · intro h
        exact h.2
    have h2 := hperm.filterMap (subsetStep jw c q)
    rw [find_subset_eq_filterMap,
      show (c.find_all jw q).filter (fun m => decide (m.id ∈ ids)) =
        ((List.range c.entries.length).filterMap
          (subsetStep jw c q)).filter (fun m => decide (m.id ∈ ids))
        from rfl,
      filter_filterMap_subsetStep jw c q ids]
    exact h2

/-- Claim C8 witness: the restriction property applied to the sample cache
with the query `appa`, the id set `[1, 0]`, and a constant
below-threshold metric (the exact name equality still matches entry 0). -/
theorem C8_find_subset_restriction_witness :
    (∀ m ∈ sampleCache.find_subset (fun _ _ => 0) "appa" [1, 0],
      m.id ∈ [1, 0]) ∧
    (sampleCache.find_subset (fun _ _ => 0) "appa" [1, 0]).Perm
      ((sampleCache.find_all (fun _ _ => 0) "appa").filter
        (fun m => decide (m.id ∈ [1, 0]))) :=
  C8_find_subset_restriction (fun _ _ => 0) sampleCache "appa" [1, 0]
    (by decide) (by decide)

/-! Helper lemmas for the history invariant claim. -/

theorem perm_cons_getElem_eraseIdx (l : List HistEntry) (i : Nat)
    (hi : i < l.length) : l.Perm (l[i] :: l.eraseIdx i) := by
  induction l generalizing i with
  | nil => simp at hi
  | cons a t ih =>
    cases i with
    | zero => simp
    | succ j =>
      have hj : j < t.length := by simpa using hi
      have h1 := (ih j hj).cons a
      have h2 := h1.trans (List.Perm.swap (t[j]) a (t.eraseIdx j))
      simpa using h2

theorem mapAny_iff_mem_keys (m : List (Nat × Nat)) (k : Nat) :
    (m.any fun p => p.1 = k) = true ↔ k ∈ m.map Prod.fst := by
  simp only [List.any_eq_true, List.mem_map, decide_eq_true_eq]

theorem mapInsert_keys_of_mem (m : List (Nat × Nat)) (k v : Nat)
    (hk : k ∈ m.map Prod.fst) :
    (mapInsert m k v).map Prod.fst = m.map Prod.fst := by
  unfold mapInsert
  rw [if_pos ((mapAny_iff_mem_keys m k).mpr hk)]
  rw [List.map_map]
  apply List.map_congr_left
  intro p _
  by_cases hp : p.1 = k
  · simp [hp]
  · simp [hp]

theorem mapInsert_keys_of_not_mem (m : List (Nat × Nat)) (k v : Nat)
    (hk : k ∉ m.map Prod.fst) :
    (mapInsert m k v).map Prod.fst = m.map Prod.fst ++ [k] := by
  unfold mapInsert
  rw [if_neg (fun h => hk ((mapAny_iff_mem_keys m k).mp h))]
  simp

theorem mapRemove_keys (m : List (Nat × Nat)) (k : Nat) :
    (mapRemove m k).map Prod.fst =
      (m.map Prod.fst).filter (fun x => decide (x ≠ k)) := by
  unfold mapRemove
  induction m with
  | nil => rfl
  | cons p t ih =>
    simp only [List.filter_cons, List.map_cons, decide_not] at ih ⊢
    by_cases hp : p.1 = k
    · simp [hp, ih]
    · simp [hp, ih]

theorem nodup_perm_cons_filter {l : List Nat} {k : Nat} (hnd : l.Nodup)
    (hk : k ∈ l) :
    l.Perm (k :: l.filter (fun x => decide (x ≠ k))) := by
  induction l with
  | nil => cases hk
  | cons a t ih =>
    rcases List.mem_cons.mp hk with rfl | hk'
    · have hknt : k ∉ t := (List.nodup_cons.mp hnd).1
      have : t.filter (fun x => decide (x ≠ k)) = t :=
        List.filter_eq_self.mpr fun x hx => by
          simp only [decide_eq_true_eq]
          exact fun hxk => hknt (hxk ▸ hx)
      rw [List.filter_cons, if_neg (by simp), this]
    · have hak : a ≠ k := fun hh => (List.nodup_cons.mp hnd).1 (hh ▸ hk')
      have hperm := ih (List.nodup_cons.mp hnd).2 hk'
      rw [List.filter_cons, if_pos (by simp [hak])]
      exact (hperm.cons a).trans (List.Perm.swap k a _)

theorem find_file_getElem (c : DesktopEntryCache) (f : String) (k : Nat)
    (h : c.find_file f = some k) :
    ∃ hk : k < c.entries.length, c.entries[k].file_name = f := by
  unfold DesktopEntryCache.find_file at h
  obtain ⟨hk, hp, _⟩ := List.findIdx?_eq_some_iff_getElem.mp h
  exact ⟨hk, by simpa using hp⟩

theorem find_file_of_wf (c : DesktopEntryCache) (hwf : c.WF) (i : Nat)
    (hi : i < c.entries.length) :
    c.find_file (c.entries[i].file_name) = some i := by
  unfold DesktopEntryCache.find_file
  rw [List.findIdx?_eq_some_iff_getElem]
  refine ⟨hi, by simp, ?_⟩
  intro j hj
  simp only [decide_eq_true_eq, Bool.not_eq_true, decide_eq_false_iff_not]
  intro hname
  have hnd := hwf
  unfold DesktopEntryCache.WF at hnd
  have hji : j < c.entries.length := Nat.lt_trans hj hi
  have hmj : j < (c.entries.map Entry.file_name).length := by simpa using hji
  have hmi : i < (c.entries.map Entry.file_name).length := by simpa using hi
  have heq : (c.entries.map Entry.file_name)[j] =
      (c.entries.map Entry.file_name)[i] := by
    simp only [List.getElem_map]
    exact hname
  have := (List.Nodup.getElem_inj_iff hnd).mp heq
  omega

theorem entryKey_desktop_inj (c : DesktopEntryCache) (f₁ f₂ : String)
    (k : Nat) (h₁ : c.find_file f₁ = some k) (h₂ : c.find_file f₂ = some k) :
    f₁ = f₂ := by
  obtain ⟨_, e₁⟩ := find_file_getElem c f₁ k h₁
  obtain ⟨_, e₂⟩ := find_file_getElem c f₂ k h₂
  rw [← e₁, ← e₂]

theorem filterMap_dropLast_of_last_not_desktop (c : DesktopEntryCache)
    (l : List HistEntry)
    (h : ∀ f, l.getLast? ≠ some (.DesktopEntry f)) :
    l.dropLast.filterMap (entryKey c) = l.filterMap (entryKey c) := by
  rcases l.eq_nil_or_concat with rfl | ⟨init, last, rfl⟩
  · rfl
  · rw [List.concat_eq_append] at h ⊢
    rw [List.dropLast_concat, List.filterMap_append]
    have hlast : entryKey c last = none := by
      cases last with
      | Path p => rfl
      | DesktopEntry f => exact absurd (by simp) (h f)
    simp [hlast]

theorem addEvictsDesktop_false (h : History) (entry : HistEntry)
    (hne : h.addEvictsDesktop entry = false)
    (hlen : (h.entries.erase entry).length = h.max_size) :
    ∀ f, (h.entries.erase entry).getLast? ≠ some (.DesktopEntry f) := by
  intro f hf
  unfold History.addEvictsDesktop at hne
  rw [hlen, hf] at hne
  simp at hne

theorem filterMap_addEntries (c : DesktopEntryCache) (h : History)
    (entry : HistEntry) (hne : h.addEvictsDesktop entry = false) :
    (addEntries h entry).filterMap (entryKey c) =
      (h.entries.erase entry).filterMap (entryKey c) := by
  unfold addEntries
  by_cases hl : (h.entries.erase entry).length = h.max_size
  · rw [if_pos hl]
    exact filterMap_dropLast_of_last_not_desktop c _
      (addEvictsDesktop_false h entry hne hl)
  · rw [if_neg hl]

theorem addEntries_subset (h : History) (entry : HistEntry) :
    ∀ e ∈ addEntries h entry, e ∈ h.entries := by
  intro e he
  unfold addEntries at he
  have h1 : e ∈ h.entries.erase entry := by
    by_cases hl : (h.entries.erase entry).length = h.max_size
    · rw [if_pos hl] at he
      exact (List.dropLast_sublist _).subset he
    · rwa [if_neg hl] at he
  exact (List.erase_sublist _ _).subset h1

theorem Inv_renew (c : DesktopEntryCache) (h : History) (hinv : h.Inv c)
    (i : Nat) (h' : History) (hr : h.renew i = some h') : h'.Inv c := by
  unfold History.renew at hr
  obtain ⟨entry, he, hh⟩ := Option.map_eq_some'.mp hr
  obtain ⟨hi, hget⟩ := List.getElem?_eq_some_iff.mp he
  subst hh
  obtain ⟨hnd, hres, hperm⟩ := hinv
  have hp := perm_cons_getElem_eraseIdx h.entries i hi
  rw [hget] at hp
  refine ⟨hnd, ?_, ?_⟩
  · intro e he2 f hf
    exact hres e (hp.mem_iff.mpr he2) f hf
  · exact ((hp.filterMap (entryKey c)).symm.trans hperm)

theorem Inv_delete (c : DesktopEntryCache) (h : History) (hinv : h.Inv c)
    (i : Nat) (h' : History) (hd : h.delete i c = some h') : h'.Inv c := by
  unfold History.delete at hd
  obtain ⟨entry, he, h2⟩ := Option.bind_eq_some.mp hd
  obtain ⟨hi, hget⟩ := List.getElem?_eq_some_iff.mp he
  obtain ⟨hnd, hres, hperm⟩ := hinv
  have hp := perm_cons_getElem_eraseIdx h.entries i hi
  rw [hget] at hp
  have hsub : ∀ e ∈ h.entries.eraseIdx i, e ∈ h.entries :=
    fun e he2 => (List.eraseIdx_sublist _ _).subset he2
  cases entry with
  | Path p =>
    rw [← Option.some.inj h2]
    refine ⟨hnd, fun e he2 f hf => hres e (hsub e he2) f hf, ?_⟩
    have h3 := hp.filterMap (entryKey c)
    rw [List.filterMap_cons] at h3
    simp only [entryKey] at h3
    exact h3.symm.trans hperm
  | DesktopEntry f =>
    obtain ⟨cid, hcid, h3⟩ := Option.bind_eq_some.mp h2
    by_cases hany : (h.desktop_ids.any fun p => p.1 = cid) = true
    · rw [if_pos hany] at h3
      rw [← Option.some.inj h3]
      have hcidK : cid ∈ h.histKeys := (mapAny_iff_mem_keys _ _).mp hany
      have hK : (mapRemove h.desktop_ids cid).map Prod.fst =
          h.histKeys.filter (fun x => decide (x ≠ cid)) := mapRemove_keys _ _
      refine ⟨?_, fun e he2 f hf => hres e (hsub e he2) f hf, ?_⟩
      · show ((mapRemove h.desktop_ids cid).map Prod.fst).Nodup
        rw [hK]
        exact List.Nodup.filter _ hnd
      · show ((h.entries.eraseIdx i).filterMap (entryKey c)).Perm
          ((mapRemove h.desktop_ids cid).map Prod.fst)
        rw [hK]
        have h4 := hp.filterMap (entryKey c)
        rw [List.filterMap_cons] at h4
        simp only [entryKey, hcid] at h4
        have h5 := nodup_perm_cons_filter hnd hcidK
        have h6 := (h4.symm.trans hperm).trans h5
        exact h6.cons_inv
    · rw [if_neg hany] at h3
      exact absurd h3 (by simp)

theorem Inv_add_path (c : DesktopEntryCache) (h : History) (hinv : h.Inv c)
    (p : String) (h' : History) (ha : h.add (.PathEntry p) c = some h')
    (hne : h.addEvictsDesktop (.Path p) = false) : h'.Inv c := by
  unfold History.add at ha
  dsimp only at ha
  simp only [Option.map_some'] at ha
  rw [← Option.some.inj ha]
  obtain ⟨hnd, hres, hperm⟩ := hinv
  refine ⟨hnd, ?_, ?_⟩
  · intro e he2 f hf
    rcases List.mem_cons.mp he2 with rfl | he3
    · exact absurd hf (by simp)
    · exact hres e (addEntries_subset h (.Path p) e he3) f hf
  · show ((HistEntry.Path p :: addEntries h (.Path p)).filterMap
      (entryKey c)).Perm h.histKeys
    rw [List.filterMap_cons]
    simp only [entryKey]
    rw [filterMap_addEntries c h (.Path p) hne]
    by_cases hmem : HistEntry.Path p ∈ h.entries
    · have hp2 := (List.perm_cons_erase hmem).filterMap (entryKey c)
      rw [List.filterMap_cons] at hp2
      simp only [entryKey] at hp2
      exact hp2.symm.trans hperm
    · rw [List.erase_of_not_mem hmem]
      exact hperm

theorem Inv_add_desktop (c : DesktopEntryCache) (hwf : c.WF) (h : History)
    (hinv : h.Inv c) (data : DesktopEntryData) (e : Entry) (h' : History)
    (hce : c.get_entry data.id = some e)
    (ha : h.add (.DeskopEntry data) c = some h')
    (hne : h.addEvictsDesktop (.DesktopEntry e.file_name) = false) :
    h'.Inv c := by
  unfold History.add at ha
  dsimp only at ha
  rw [hce] at ha
  simp only [Option.map_some'] at ha
  rw [← Option.some.inj ha]
  unfold DesktopEntryCache.get_entry at hce
  obtain ⟨hi, hget⟩ := List.getElem?_eq_some_iff.mp hce
  have hff : c.find_file e.file_name = some data.id := by
    rw [← hget]
    exact find_file_of_wf c hwf data.id hi
  obtain ⟨hnd, hres, hperm⟩ := hinv
  have hmemiff : data.id ∈ h.histKeys ↔
      HistEntry.DesktopEntry e.file_name ∈ h.entries := by
    constructor
    · intro hk
      have h1 : data.id ∈ h.entries.filterMap (entryKey c) :=
        hperm.mem_iff.mpr hk
      obtain ⟨x, hx, hxk⟩ := List.mem_filterMap.mp h1
      cases x with
      | Path q => exact absurd hxk (by simp [entryKey])
      | DesktopEntry f' =>
        have : f' = e.file_name :=
          entryKey_desktop_inj c f' e.file_name data.id hxk hff
        rwa [← this]
    · intro hx
      refine hperm.mem_iff.mp (List.mem_filterMap.mpr ⟨_, hx, ?_⟩)
      simpa [entryKey] using hff
  refine ⟨?_, ?_, ?_⟩
  · show ((mapInsert h.desktop_ids data.id h.next_score).map Prod.fst).Nodup
    by_cases hk : data.id ∈ h.histKeys
    · rw [mapInsert_keys_of_mem _ _ _ hk]
      exact hnd
    · rw [mapInsert_keys_of_not_mem _ _ _ hk]
      exact (List.perm_append_singleton _ _).nodup_iff.mpr
        (List.nodup_cons.mpr ⟨hk, hnd⟩)
  · intro x hx f hf
    rcases List.mem_cons.mp hx with rfl | hx2
    · cases hf
      simp [hff]
    · exact hres x (addEntries_subset _ _ x hx2) f hf
  · show ((HistEntry.DesktopEntry e.file_name ::
        addEntries { h with
          desktop_ids := mapInsert h.desktop_ids data.id h.next_score,
          next_score := h.next_score + 1 }
          (.DesktopEntry e.file_name)).filterMap (entryKey c)).Perm
      ((mapInsert h.desktop_ids data.id h.next_score).map Prod.fst)
    rw [List.filterMap_cons]
    simp only [entryKey, hff]
    rw [show addEntries { h with
          desktop_ids := mapInsert h.desktop_ids data.id h.next_score,
          next_score := h.next_score + 1 }
          (.DesktopEntry e.file_name) =
        addEntries h (.DesktopEntry e.file_name) from rfl,
      filterMap_addEntries c h _ hne]
    by_cases hmem : HistEntry.DesktopEntry e.file_name ∈ h.entries
    · rw [mapInsert_keys_of_mem _ _ _ (hmemiff.mpr hmem)]
      have hp2 := (List.perm_cons_erase hmem).filterMap (entryKey c)
      rw [List.filterMap_cons] at hp2
      simp only [entryKey, hff] at hp2
      exact (hperm.symm.trans hp2).symm
    · have hk : data.id ∉ h.histKeys := fun hk => hmem (hmemiff.mp hk)
      rw [mapInsert_keys_of_not_mem _ _ _ hk,
        List.erase_of_not_mem hmem]
      exact ((hperm.cons data.id).trans
        (List.perm_append_singleton _ _).symm)

/-- Claim C2, counterexample: the correspondence invariant is *not*
maintained by `add` when the oldest entry is evicted at capacity. With
capacity 1, adding desktop entry 0 and then desktop entry 1 evicts the
first entry from the sequence (`pop_back`) without removing its identifier
from the recency map: afterwards the map holds both ids 0 and 1 while the
sequence holds only entry 1, so id 0 has no corresponding position. -/
theorem C2_eviction_breaks_invariant :
    ((History.new 1).add (.DeskopEntry sampleDataA) sampleCache).bind
        (fun h1 => h1.add (.DeskopEntry sampleDataB) sampleCache) =
      some { entries := [.DesktopEntry "b.desktop"],
             desktop_ids := [(0, 0), (1, 1)], next_score := 2,
             max_size := 1 } ∧
    ¬ ({ entries := [.DesktopEntry "b.desktop"],
         desktop_ids := [(0, 0), (1, 1)], next_score := 2,
         max_size := 1 } : History).Inv sampleCache := by
  constructor
  · with_unfolding_all decide
  · with_unfolding_all decide

/-- Claim C2 as amended: for a well-formed cache (pairwise-distinct file
names, as `rebuild`'s deduplication ensures), the correspondence invariant
— no duplicate keys in the recency index, every desktop entry of the
sequence resolving to a cache id, and the ids of the sequence's desktop
entries being exactly the key set of the index — is preserved by `renew`,
by `delete`, and by any `add` that does not evict a desktop entry; an add
that evicts a desktop entry at capacity leaves a stale identifier in the
recency index (see the counterexample). -/
theorem C2_invariant_preservation (c : DesktopEntryCache) (h : History)
    (hwf : c.WF) (hinv : h.Inv c) :
    (∀ p h', h.add (.PathEntry p) c = some h' →
      h.addEvictsDesktop (.Path p) = false → h'.Inv c) ∧
    (∀ data e h', c.get_entry data.id = some e →
      h.add (.DeskopEntry data) c = some h' →
      h.addEvictsDesktop (.DesktopEntry e.file_name) = false →
      h'.Inv c) ∧
    (∀ i h', h.renew i = some h' → h'.Inv c) ∧
    (∀ i h', h.delete i c = some h' → h'.Inv c) :=
  ⟨fun p h' ha hne => Inv_add_path c h hinv p h' ha hne,
   fun data e h' hce ha hne =>
     Inv_add_desktop c hwf h hinv data e h' hce ha hne,
   fun i h' hr => Inv_renew c h hinv i h' hr,
   fun i h' hd => Inv_delete c h hinv i h' hd⟩

/-- Claim C2 witness: the preservation theorem applied to the sample cache
and an empty history of capacity 2, for a concrete non-evicting add of
desktop entry 0, with every hypothesis discharged by evaluation. -/
theorem C2_invariant_preservation_witness :
    ({ entries := [.DesktopEntry "a.desktop"], desktop_ids := [(0, 0)],
       next_score := 1, max_size := 2 } : History).Inv sampleCache :=
  (C2_invariant_preservation sampleCache (History.new 2)
      (by with_unfolding_all decide)
      (by with_unfolding_all decide)).2.1 sampleDataA sampleEntryA
    { entries := [.DesktopEntry "a.desktop"], desktop_ids := [(0, 0)],
      next_score := 1, max_size := 2 }
    (by with_unfolding_all decide) (by with_unfolding_all decide)
    (by with_unfolding_all decide)

end Launcher
